import Mathlib

/-!
Verification of the Rasa custom-action module `actions.py` of the
krhubdev/rasa-bot repository (LumiChat backend).

All text is modelled as `List Char` (the characters of the Python `str`).
Python `None` inputs are modelled as the empty list, mirroring the
source's `(text or "")` defaulting.  The template store
`domain["responses"]` is modelled by the list of its keys, and a domain
without a `"responses"` entry by `none`.  The current wall-clock date is
an abstract day number `today : Nat` (so "tomorrow" is `today + 1`), the
current time a pair `nowH nowM : Nat`, and the optional third-party
`dateutil` parser an abstract `Option (Str → Option Nat)` oracle.
-/

namespace RasaBot

abbrev Str := List Char

/-- Characters of a Lean string literal, used to transcribe Python string
literals from the source. -/
def str (s : String) : Str := s.toList

/-- Python `text.lower()`. -/
def lowerStr (l : Str) : Str := l.map Char.toLower

def isWsChar (c : Char) : Bool := c.isWhitespace

/-- Python `text.strip()`: drop whitespace from both ends. -/
def trimStr (l : Str) : Str :=
  ((l.dropWhile isWsChar).reverse.dropWhile isWsChar).reverse

/-- Python `p in l` on strings: contiguous-substring test. -/
def infixOfB (p l : Str) : Bool := decide (p <:+: l)

/-- Python `s.replace(pat, rep)` (all non-overlapping occurrences, left to
right), written with explicit fuel so that it is structurally recursive;
`replaceAll` instantiates the fuel with the input length, which always
suffices because each step consumes at least one character. -/
def replaceAllFuel (pat rep : Str) : Nat → Str → Str
  | _, [] => []
  | 0, l => l
  | fuel + 1, c :: rest =>
    if pat ≠ [] ∧ pat.isPrefixOf (c :: rest) = true then
      rep ++ replaceAllFuel pat rep fuel ((c :: rest).drop pat.length)
    else
      c :: replaceAllFuel pat rep fuel rest

def replaceAll (pat rep l : Str) : Str := replaceAllFuel pat rep l.length l

/-- A message sent through the `CollectingDispatcher`: either a reference
to a response template (`utter_message(response=...)`) or a literal text
(`utter_message(text=...)`). -/
inductive OutMsg where
  | response (nm : Str)
  | text (body : Str)
  deriving DecidableEq, Repr

/-- A Rasa conversation event proposed by an action; the module only ever
emits `SlotSet`. -/
inductive Ev where
  | slotSet (slot value : Str)
  deriving DecidableEq, Repr

/-- `CRISIS_KEYWORDS` from `actions.py`. -/
def CRISIS_KEYWORDS : List Str :=
  [str "suicide", str "kill myself", str "end my life", str "self harm",
   str "self-harm", str "i want to die", str "i want to end it", str "hurt myself"]

/-- `ActionSelectNumberedResponse._has_crisis_terms`. -/
def has_crisis_terms (text : Str) : Bool :=
  CRISIS_KEYWORDS.any (fun k => infixOfB k (lowerStr text))

/-- The hard-coded safety text of the crisis branch. -/
def crisisFallbackText : Str :=
  str "I\x27m concerned for your safety. If you\x27re in immediate danger, please call local emergency services now."

/-- The generic fallback of the numbered-response selector. -/
def genericFallbackText : Str :=
  str "I\x27m here with you. Tell me a bit more about what you\x27re feeling."

/-- `ActionSelectNumberedResponse.run`.  Inputs: the latest intent name,
the raw user text, and the keys of `domain["responses"]` (or `none` when
the domain has no `responses` entry).  Output: the dispatched messages
and the returned event list. -/
def action_select_numbered_response (intentName userText : Str)
    (domain : Option (List Str)) : List OutMsg × List Ev :=
  if intentName = str "safety_critical" ∨ has_crisis_terms userText = true then
    (if (domain.getD []).contains (str "utter_crisis") then
      [OutMsg.response (str "utter_crisis")]
    else
      [OutMsg.text crisisFallbackText], [])
  else
    let hasSlash := infixOfB (str "/") intentName
    let base := if hasSlash then intentName.takeWhile (· != '/') else intentName
    let key :=
      if hasSlash then
        str "utter_" ++ base ++ '/' :: intentName.drop (base.length + 1)
      else
        str "utter_" ++ base
    let responses := domain.getD []
    if responses.contains key then
      ([OutMsg.response key], [])
    else if responses.contains (str "utter_" ++ base) then
      ([OutMsg.response (str "utter_" ++ base)], [])
    else
      ([OutMsg.text genericFallbackText], [])

/-- `[a-z_]`, the character class of group 1 of the numeric-variant regex. -/
def lowbarChar (c : Char) : Bool := c == '_' || (decide ('a' ≤ c) && decide (c ≤ 'z'))

/-- The regex `([a-z_]+?)(?:_p\\d+)$` used by `_canonical_mood_from_intent`,
as it behaves on the raw Python string in the source: the doubled
backslash inside the raw string makes the pattern match a literal
backslash followed by one or more letters `d`, not digits.  `re.match`
anchors at the start and the pattern ends with `$`, so a match decomposes
the whole intent as `group1 ++ "_p" ++ "\" ++ "d"*k` with `group1`
nonempty over `[a-z_]` and `k ≥ 1` (the backslash can sit nowhere else,
since no other pattern piece admits it).  Returns `group(1)` on success. -/
def suffix_regex_group (x : Str) : Option Str :=
  let pre := x.takeWhile (· != '\\')
  if pre.length = x.length then none
  else
    let post := x.drop (pre.length + 1)
    match pre.reverse with
    | 'p' :: '_' :: wrev =>
      if wrev.reverse ≠ [] ∧ (wrev.reverse).all lowbarChar = true ∧
          post ≠ [] ∧ post.all (· == 'd') = true then
        some wrev.reverse
      else none
    | _ => none

/-- The `aliases` dict of `_canonical_mood_from_intent`, in insertion
order (Python dicts iterate in insertion order). -/
def MOOD_ALIASES : List (Str × Str) :=
  [(str "stress", str "stress_burnout"), (str "burnout", str "stress_burnout"),
   (str "relationship", str "relationship_romance"), (str "romance", str "relationship_romance"),
   (str "selfesteem", str "self_esteem_body"), (str "self_esteem", str "self_esteem_body"),
   (str "bodyimage", str "self_esteem_body"),
   (str "grief", str "grief_loss"), (str "loneliness", str "loneliness_isolation"),
   (str "trauma", str "trauma_ptsd"), (str "ptsd", str "trauma_ptsd"),
   (str "sleep", str "sleep_insomnia"), (str "insomnia", str "sleep_insomnia"),
   (str "school", str "school_academic"), (str "sad", str "depression")]

/-- The `for k,v in aliases.items(): if base.startswith(k): return v` loop. -/
def aliasLookup (base : Str) : Option Str :=
  MOOD_ALIASES.findSome? (fun kv => if kv.1.isPrefixOf base = true then some kv.2 else none)

/-- `_canonical_mood_from_intent` from `actions.py`. -/
def canonical_mood_from_intent (intent : Str) : Str :=
  if (str "express_").isPrefixOf intent = true then
    let key0 := replaceAll (str "express_") [] intent
    let key1 := if key0 = str "sadness" then str "depression" else key0
    let key2 := if key1 = str "stress" then str "stress_burnout" else key1
    let key3 := if key2 = str "sleep" then str "sleep_insomnia" else key2
    let key4 := if key3 = str "relationship" then str "relationship_romance" else key3
    let key5 := if key4 = str "low_self_esteem" then str "self_esteem_body" else key4
    key5
  else
    let base := (suffix_regex_group intent).getD intent
    (aliasLookup base).getD base

/-- `MOOD_TO_SUPPORT_UTTER` from `actions.py`. -/
def MOOD_TO_SUPPORT_UTTER : List (Str × Str) :=
  [(str "anxiety", str "utter_support_anxiety"),
   (str "depression", str "utter_support_depression"),
   (str "stress_burnout", str "utter_support_stress_burnout"),
   (str "anger", str "utter_support_anger"),
   (str "addiction", str "utter_support_addiction"),
   (str "self_esteem_body", str "utter_support_self_esteem_body"),
   (str "grief_loss", str "utter_support_grief_loss"),
   (str "sleep_insomnia", str "utter_support_sleep_insomnia"),
   (str "loneliness_isolation", str "utter_support_loneliness_isolation"),
   (str "trauma_ptsd", str "utter_support_trauma_ptsd"),
   (str "relationship_romance", str "utter_support_relationship_romance"),
   (str "school_academic", str "utter_support_school_academic")]

/-- Python `dict.get` on an association list with unique keys. -/
def assocGet (m : List (Str × Str)) (k : Str) : Option Str :=
  m.findSome? (fun kv => if kv.1 = k then some kv.2 else none)

/-- The literal fallback text of `ActionAnalyzeIssue.run`. -/
def analyzeFallbackText : Str :=
  str "Thanks for sharing. I’m here to listen and help with next steps."

/-- `ActionAnalyzeIssue.run`: dispatches a per-mood support template (or
the fallback text), optionally the coping offer, and returns the mood
slot event. -/
def action_analyze_issue (intent : Str) (domain : Option (List Str)) :
    List OutMsg × List Ev :=
  let mood := canonical_mood_from_intent intent
  let head :=
    match assocGet MOOD_TO_SUPPORT_UTTER mood with
    | some u => [OutMsg.response u]
    | none => [OutMsg.text analyzeFallbackText]
  let offer :=
    match domain with
    | some responses =>
      if responses.contains (str "utter_offer_coping") then
        [OutMsg.response (str "utter_offer_coping")]
      else []
    | none => []
  (head ++ offer, [Ev.slotSet (str "mood") mood])

/-- `CEB_DATE_MAP` from `actions.py`, in insertion order. -/
def CEB_DATE_MAP : List (Str × Str) :=
  [(str "ugma", str "tomorrow"), (str "karon", str "today"),
   (str "unya", str "later"), (str "sunod semana", str "next week")]

/-- `EN_MISSPELLINGS` from `actions.py`. -/
def EN_MISSPELLINGS : List (Str × Str) :=
  [(str "tommorow", str "tomorrow"), (str "tomorow", str "tomorrow"),
   (str "tmrw", str "tomorrow")]

/-- `CEB_TIME_KEYWORDS` from `actions.py`, in insertion order. -/
def CEB_TIME_KEYWORDS : List (Str × Str) :=
  [(str "buntag", str "morning"), (str "hapon", str "afternoon"),
   (str "udto", str "noon"), (str "gabii", str "evening"),
   (str "karon", str "now")]

/-- `normalize_date_text` from `actions.py`: strip and lowercase, fix an
exact misspelling, then substring-replace each Cebuano date phrase. -/
def normalize_date_text (text : Str) : Str :=
  let t0 := lowerStr (trimStr text)
  let t1 :=
    match assocGet EN_MISSPELLINGS t0 with
    | some v => v
    | none => t0
  CEB_DATE_MAP.foldl
    (fun t kv => if infixOfB kv.1 t = true then replaceAll kv.1 kv.2 t else t) t1

/-- `normalize_time_text` from `actions.py`: strip and lowercase, replace
the WHOLE string by the mapped word as soon as a Cebuano time keyword is
contained, then remove all spaces. -/
def normalize_time_text (text : Str) : Str :=
  let t0 := lowerStr (trimStr text)
  let t1 := CEB_TIME_KEYWORDS.foldl
    (fun t kv => if infixOfB kv.1 t = true then kv.2 else t) t0
  t1.filter (· != ' ')

/-- Python `\w` (on the ASCII inputs this module handles). -/
def isWordChar (c : Char) : Bool := c.isAlphanum || c == '_'

def isSepChar (c : Char) : Bool := c == '/' || c == '-'

/-- Whole-substring match of the first regex alternative: one or two
digits, a slash-or-dash separator, one or two digits, optionally another
separator and two to four digits. -/
def matchesNumericDate (cs : Str) : Bool :=
  [1, 2].any (fun la =>
    [1, 2].any (fun lb =>
      decide ((cs.take la).length = la) && (cs.take la).all Char.isDigit &&
      (match cs.drop la with
       | c1 :: r2 =>
         isSepChar c1 &&
         (decide ((r2.take lb).length = lb) && (r2.take lb).all Char.isDigit &&
          (match r2.drop lb with
           | [] => true
           | c2 :: d3 =>
             isSepChar c2 && [2, 3, 4].any (fun lc => decide (d3.length = lc)) &&
               d3.all Char.isDigit))
       | [] => false)))

/-- Whole-substring match of `[a-z]{3,}\s+\d{1,2}` (the three character
classes are disjoint, so greedy matching is forced). -/
def matchesMonthDate (cs : Str) : Bool :=
  let letters := cs.takeWhile (fun c => decide ('a' ≤ c) && decide (c ≤ 'z'))
  let r1 := cs.drop letters.length
  let sp := r1.takeWhile isWsChar
  let d := r1.drop sp.length
  decide (3 ≤ letters.length) && decide (1 ≤ sp.length) &&
    (decide (d.length = 1) || decide (d.length = 2)) && d.all Char.isDigit

/-- `re.search` of the date-shape regex of `parse_date` (a numeric date
like `12-31-2024` or a month word followed by a day number, wrapped in
`\b` word boundaries): some substring with word boundaries on both sides
matches one of the two alternatives. -/
def date_like_search (l : Str) : Bool :=
  (List.range (l.length + 1)).any (fun i =>
    (List.range (l.length + 1)).any (fun j =>
      decide (i < j) &&
      (decide (i = 0) || !isWordChar (l.getD (i - 1) ' ')) &&
      (decide (j = l.length) || !isWordChar (l.getD j ' ')) &&
      (matchesNumericDate ((l.drop i).take (j - i)) ||
       matchesMonthDate ((l.drop i).take (j - i)))))

/-- Result of `parse_date`: an ISO-formatted date (modelled by its day
number) or the normalized input passed through raw. -/
inductive DateRes where
  | iso (day : Nat)
  | raw (s : Str)
  deriving DecidableEq, Repr

/-- `parse_date` from `actions.py`.  `today` is the current date as an
abstract day number (`.isoformat()` of day `d` is modelled as `iso d`);
`dateparser` is the optional third-party `dateutil` fuzzy parser, as an
abstract oracle (`none` both when the import failed and when parsing
raises or returns nothing). -/
def parse_date (today : Nat) (dateparser : Option (Str → Option Nat))
    (value : Str) : Option DateRes :=
  let s := normalize_date_text value
  if s = str "today" ∨ s = str "now" then some (DateRes.iso today)
  else if s = str "tomorrow" then some (DateRes.iso (today + 1))
  else if s = str "nextweek" then some (DateRes.iso (today + 7))
  else
    match dateparser with
    | some dp =>
      match dp s with
      | some d => some (DateRes.iso d)
      | none => if date_like_search s = true then some (DateRes.raw s) else none
    | none => if date_like_search s = true then some (DateRes.raw s) else none

/-- Digits-to-number, e.g. for `int(m.group(1))`. -/
def natOfDigits (ds : Str) : Nat :=
  ds.foldl (fun a c => a * 10 + (c.toNat - '0'.toNat)) 0

/-- Python `f"{n:02d}"`. -/
def pad2 (n : Nat) : Str :=
  if n < 10 then '0' :: (Nat.repr n).toList else (Nat.repr n).toList

/-- The anchored clock regex `^(\d{1,2})(?::(\d{2}))?(am|pm)?$` of
`parse_time`, returning `(hour, minutes, meridiem)` with `pm` as
`some true` and `am` as `some false`.  The digit run, the optional
minutes group and the optional meridiem are all forced, so no
backtracking case is lost. -/
def clock_groups (s : Str) : Option (Nat × Nat × Option Bool) :=
  let ds := s.takeWhile Char.isDigit
  if ds.length = 1 ∨ ds.length = 2 then
    let minPart : Option (Nat × Str) :=
      match s.drop ds.length with
      | ':' :: c1 :: c2 :: rest2 =>
        if c1.isDigit && c2.isDigit then some (natOfDigits [c1, c2], rest2) else none
      | ':' :: _ => none
      | r1 => some (0, r1)
    match minPart with
    | none => none
    | some (mins, r2) =>
      match r2 with
      | [] => some (natOfDigits ds, mins, none)
      | ['a', 'm'] => some (natOfDigits ds, mins, some false)
      | ['p', 'm'] => some (natOfDigits ds, mins, some true)
      | _ => none
  else none

/-- The 12-hour conversion of `parse_time`: `pm` adds 12 unless the hour
is 12 already, `am` zeroes hour 12. -/
def clock_convert (h : Nat) (ampm : Option Bool) : Nat :=
  match ampm with
  | some true => if h ≠ 12 then h + 12 else h
  | some false => if h = 12 then 0 else h
  | none => h

/-- The guarded return of the clock branch: `HH:MM` when the hour is in
`[0,24)` and the minute in `[0,60)`, otherwise fall through. -/
def clock_result (h mins : Nat) : Option Str :=
  if h < 24 ∧ mins < 60 then some (pad2 h ++ ':' :: pad2 mins) else none

/-- `WORD_MAP` of `parse_time`; the `"now"` entry is
`datetime.now().strftime("%H:%M")` for the current time `nowH:nowM`. -/
def word_map (nowH nowM : Nat) : List (Str × Str) :=
  [(str "morning", str "09:00"), (str "noon", str "12:00"),
   (str "afternoon", str "15:00"), (str "evening", str "18:00"),
   (str "now", pad2 nowH ++ ':' :: pad2 nowM)]

/-- The `(buntag|hapon|gabii)` alternation, tried in order as a prefix. -/
def checkPart (r : Str) : Option Str :=
  if (str "buntag").isPrefixOf r = true then some (str "buntag")
  else if (str "hapon").isPrefixOf r = true then some (str "hapon")
  else if (str "gabii").isPrefixOf r = true then some (str "gabii")
  else none

/-- One anchored attempt of the Cebuano clock regex
`alas\s*(\d{1,2})\s*(?:sa)?\s*(buntag|hapon|gabii)` at the start of `t`:
literal `alas`, optional spaces, a full digit run of length 1 or 2 (a
longer run can never recover, since the next piece admits no digit),
optional spaces, optionally the literal `sa` (tried first, as the regex
does), optional spaces, then one of the three part-of-day words. -/
def attempt_alas (t : Str) : Option (Nat × Str) :=
  if (str "alas").isPrefixOf t = true then
    let r1 := (t.drop 4).dropWhile isWsChar
    let ds := r1.takeWhile Char.isDigit
    if ds.length = 1 ∨ ds.length = 2 then
      let r2 := (r1.drop ds.length).dropWhile isWsChar
      let withSa : Option Str :=
        if (str "sa").isPrefixOf r2 = true then
          checkPart ((r2.drop 2).dropWhile isWsChar)
        else none
      match withSa with
      | some part => some (natOfDigits ds, part)
      | none =>
        match checkPart r2 with
        | some part => some (natOfDigits ds, part)
        | none => none
    else none
  else none

/-- `re.search` for the Cebuano clock regex: try every start position,
left to right. -/
def alas_search : Str → Option (Nat × Str)
  | [] => attempt_alas []
  | c :: rest =>
    match attempt_alas (c :: rest) with
    | some r => some r
    | none => alas_search rest

/-- `parse_time` from `actions.py`.  `nowH:nowM` is the current wall
clock, used by the `"now"` entry of `WORD_MAP`. -/
def parse_time (nowH nowM : Nat) (value : Str) : Option Str :=
  let s := normalize_time_text value
  let clockRes : Option Str :=
    match clock_groups s with
    | some (h, mins, ampm) => clock_result (clock_convert h ampm) mins
    | none => none
  match clockRes with
  | some r => some r
  | none =>
    match assocGet (word_map nowH nowM) s with
    | some r => some r
    | none =>
      match alas_search (lowerStr value) with
      | some (h, part) =>
        let h' :=
          if part = str "buntag" then (if h = 12 then 0 else h)
          else (if h < 12 then h + 12 else h)
        some (pad2 h' ++ str ":00")
      | none => none

/-- The affirmative phrase set of `normalize_yes_no`. -/
def YES_SET : List Str :=
  [str "yes", str "y", str "yep", str "yeah", str "yup", str "sure",
   str "ok", str "okay", str "okk", str "okie", str "go ahead", str "please",
   str "yes please", str "proceed", str "sige", str "oo", str "oo, sige",
   str "oo sige"]

/-- The negative phrase set of `normalize_yes_no`. -/
def NO_SET : List Str :=
  [str "no", str "nope", str "nah", str "not now", str "maybe later",
   str "dili", str "ayaw"]

/-- `normalize_yes_no` from `actions.py`.  The final Python `return v or ""`
returns `v` itself whether or not `v` is empty, so it is modelled as `v`. -/
def normalize_yes_no (value : Str) : Str :=
  let v := lowerStr (trimStr value)
  if YES_SET.contains v then str "yes"
  else if NO_SET.contains v then str "no"
  else v

end RasaBot

namespace RasaBot

/-- Membership of a singleton infix is membership of the element. -/
theorem singleton_infix_iff {c : Char} {l : Str} : [c] <:+: l ↔ c ∈ l := by
  constructor
  · intro h
    exact h.sublist.subset (by simp)
  · intro h
    obtain ⟨s, t, rfl⟩ := List.append_of_mem h
    exact ⟨s, t, by simp⟩

/-- When the intent contains a slash, it decomposes as the part before the
first slash, the slash, and the rest. -/
theorem slash_decomp {intent : Str} (h : infixOfB (str "/") intent = true) :
    intent = intent.takeWhile (· != '/') ++
      '/' :: intent.drop ((intent.takeWhile (· != '/')).length + 1) := by
  have hmem : '/' ∈ intent := by
    have := of_decide_eq_true h
    exact singleton_infix_iff.mp this
  have hsplit : intent.takeWhile (· != '/') ++ intent.dropWhile (· != '/') = intent :=
    List.takeWhile_append_dropWhile _ _
  have hne : intent.dropWhile (· != '/') ≠ [] := by
    intro hnil
    have heq : intent.takeWhile (· != '/') = intent := by
      have h2 := hsplit
      rw [hnil, List.append_nil] at h2
      exact h2
    have hall := List.takeWhile_eq_self_iff.mp heq '/' hmem
    simp at hall
  obtain ⟨d, rest, hd⟩ := List.exists_cons_of_ne_nil hne
  have hdslash : d = '/' := by
    have h3 := List.head?_dropWhile_not (· != '/') intent
    rw [hd] at h3
    simp only [List.head?_cons] at h3
    simpa using h3
  have hdrop : intent.drop ((intent.takeWhile (· != '/')).length + 1) = rest := by
    have h1 : intent = (intent.takeWhile (· != '/') ++ [d]) ++ rest := by
      calc intent = intent.takeWhile (· != '/') ++ intent.dropWhile (· != '/') := hsplit.symm
        _ = intent.takeWhile (· != '/') ++ (d :: rest) := by rw [hd]
        _ = (intent.takeWhile (· != '/') ++ [d]) ++ rest := by simp
    nth_rewrite 2 [h1]
    rw [List.drop_left' (by simp)]
  rw [hdslash] at hd
  rw [hdrop, ← hd, hsplit]

/-- C1: for every intent name and template store, if the intent equals
"safety_critical" or the raw user text (case-insensitively) contains any
configured crisis phrase as a substring, then
`ActionSelectNumberedResponse` emits exactly the crisis template
`utter_crisis` when the store defines it and otherwise the fixed
hard-coded safety message, emits nothing else, and proposes no events. -/
theorem C1_safety_override (intentName userText : Str) (domain : Option (List Str))
    (h : intentName = str "safety_critical" ∨ has_crisis_terms userText = true) :
    action_select_numbered_response intentName userText domain =
      ((if (domain.getD []).contains (str "utter_crisis") then
          [OutMsg.response (str "utter_crisis")]
        else
          [OutMsg.text crisisFallbackText]), []) ∧
    (action_select_numbered_response intentName userText domain).1.length = 1 := by
  unfold action_select_numbered_response
  rw [if_pos h]
  refine ⟨rfl, ?_⟩
  by_cases hc : (domain.getD []).contains (str "utter_crisis") = true
  · rw [if_pos hc]; rfl
  · rw [if_neg hc]; rfl

theorem C1_safety_override_witness :
    ((str "safety_critical" = str "safety_critical" ∨
        has_crisis_terms (str "hello") = true) ∧
      (action_select_numbered_response (str "safety_critical") (str "hello") none =
        ((if ((none : Option (List Str)).getD []).contains (str "utter_crisis") then
            [OutMsg.response (str "utter_crisis")]
          else
            [OutMsg.text crisisFallbackText]), []) ∧
        (action_select_numbered_response (str "safety_critical") (str "hello") none).1.length = 1)) :=
  ⟨Or.inl rfl, C1_safety_override (str "safety_critical") (str "hello") none (Or.inl rfl)⟩

/-- C2: for every intent that does not trigger the safety override, the
selector emits the template `utter_<intent>` (which for an intent
`base/variant` is `utter_base/variant`) when the store defines it, else
the parent template `utter_base` (base = the part before the first
slash), else the fixed generic fallback text; and on every input it emits
exactly one message and returns an empty event list. -/
theorem C2_template_resolution :
    (∀ (intentName userText : Str) (domain : Option (List Str)),
      ¬ (intentName = str "safety_critical" ∨ has_crisis_terms userText = true) →
      action_select_numbered_response intentName userText domain =
        (if (domain.getD []).contains (str "utter_" ++ intentName) then
          [OutMsg.response (str "utter_" ++ intentName)]
        else if (domain.getD []).contains
            (str "utter_" ++ intentName.takeWhile (· != '/')) then
          [OutMsg.response (str "utter_" ++ intentName.takeWhile (· != '/'))]
        else
          [OutMsg.text genericFallbackText], [])) ∧
    (∀ (intentName userText : Str) (domain : Option (List Str)),
      (action_select_numbered_response intentName userText domain).1.length = 1 ∧
      (action_select_numbered_response intentName userText domain).2 = []) := by
  have main : ∀ (intentName userText : Str) (domain : Option (List Str)),
      ¬ (intentName = str "safety_critical" ∨ has_crisis_terms userText = true) →
      action_select_numbered_response intentName userText domain =
        (if (domain.getD []).contains (str "utter_" ++ intentName) then
          [OutMsg.response (str "utter_" ++ intentName)]
        else if (domain.getD []).contains
            (str "utter_" ++ intentName.takeWhile (· != '/')) then
          [OutMsg.response (str "utter_" ++ intentName.takeWhile (· != '/'))]
        else
          [OutMsg.text genericFallbackText], []) := by
    intro intentName userText domain h
    unfold action_select_numbered_response
    rw [if_neg h]
    by_cases hs : infixOfB (str "/") intentName = true
    · simp only [hs, eq_self_iff_true, if_true]
      have hkey : (str "utter_" ++ intentName.takeWhile (· != '/')) ++
          '/' :: intentName.drop ((intentName.takeWhile (· != '/')).length + 1) =
          str "utter_" ++ intentName := by
        rw [List.append_assoc, ← slash_decomp hs]
      rw [hkey]
      by_cases h1 : (domain.getD []).contains (str "utter_" ++ intentName) = true
      · rw [if_pos h1, if_pos h1]
      · rw [if_neg h1, if_neg h1]
        by_cases h2 : (domain.getD []).contains
            (str "utter_" ++ intentName.takeWhile (· != '/')) = true
        · rw [if_pos h2, if_pos h2]
        · rw [if_neg h2, if_neg h2]
    · have hs' : infixOfB (str "/") intentName = false := by
        revert hs; cases infixOfB (str "/") intentName <;> simp
      simp only [hs', Bool.false_eq_true, if_false]
      have hall : intentName.takeWhile (· != '/') = intentName := by
        apply List.takeWhile_eq_self_iff.mpr
        intro x hx
        have hnot : ¬ ([ '/' ] <:+: intentName) := by
          intro hcontra
          exact absurd (decide_eq_true hcontra) (by simpa [infixOfB] using hs)
        have hxne : x ≠ '/' := by
          intro hx'
          exact hnot (singleton_infix_iff.mpr (hx' ▸ hx))
        simpa using hxne
      rw [hall]
      by_cases h1 : (domain.getD []).contains (str "utter_" ++ intentName) = true
      · rw [if_pos h1, if_pos h1]
      · rw [if_neg h1, if_neg h1, if_neg h1, if_neg h1]
  refine ⟨main, ?_⟩
  intro intentName userText domain
  by_cases h : intentName = str "safety_critical" ∨ has_crisis_terms userText = true
  · unfold action_select_numbered_response
    rw [if_pos h]
    by_cases hc : (domain.getD []).contains (str "utter_crisis") = true
    · rw [if_pos hc]; exact ⟨rfl, rfl⟩
    · rw [if_neg hc]; exact ⟨rfl, rfl⟩
  · rw [main intentName userText domain h]
    constructor
    · by_cases h1 : (domain.getD []).contains (str "utter_" ++ intentName) = true
      · rw [if_pos h1]; rfl
      · rw [if_neg h1]
        by_cases h2 : (domain.getD []).contains
            (str "utter_" ++ intentName.takeWhile (· != '/')) = true
        · rw [if_pos h2]; rfl
        · rw [if_neg h2]; rfl
    · rfl

theorem C2_template_resolution_witness :
    (¬ (str "greet" = str "safety_critical" ∨ has_crisis_terms (str "hi") = true)) ∧
    action_select_numbered_response (str "greet") (str "hi") (some [str "utter_greet"]) =
      (if ((some [str "utter_greet"]).getD []).contains (str "utter_" ++ str "greet") then
        [OutMsg.response (str "utter_" ++ str "greet")]
      else if ((some [str "utter_greet"]).getD []).contains
          (str "utter_" ++ (str "greet").takeWhile (· != '/')) then
        [OutMsg.response (str "utter_" ++ (str "greet").takeWhile (· != '/'))]
      else
        [OutMsg.text genericFallbackText], []) :=
  ⟨by decide, C2_template_resolution.1 (str "greet") (str "hi") (some [str "utter_greet"])
    (by decide)⟩

/-- C3 (evidence for the code bug): the numeric-variant suffix is NOT
stripped — the regex `([a-z_]+?)(?:_p\\d+)$` is written inside a raw
Python string, so its doubled backslash matches a literal backslash
followed by letters `d` and never a digit suffix.  For intent
`anxiety_p0007` with an empty template store, `ActionAnalyzeIssue` does
emit the fixed fallback text, but proposes `SlotSet("mood",
"anxiety_p0007")`, not `"anxiety"` as the claim states. -/
theorem C3_numeric_suffix_not_stripped :
    canonical_mood_from_intent (str "anxiety_p0007") = str "anxiety_p0007" ∧
    action_analyze_issue (str "anxiety_p0007") (some []) =
      ([OutMsg.text analyzeFallbackText],
       [Ev.slotSet (str "mood") (str "anxiety_p0007")]) := by
  exact ⟨rfl, rfl⟩

/-- C4 (counterexample): mood canonicalization is not idempotent on all
intents: `express_burnout` maps to `burnout`, which maps on a second
application to `stress_burnout`. -/
theorem C4_idempotence_counterexample :
    canonical_mood_from_intent (canonical_mood_from_intent (str "express_burnout")) ≠
      canonical_mood_from_intent (str "express_burnout") ∧
    canonical_mood_from_intent (str "express_burnout") = str "burnout" ∧
    canonical_mood_from_intent (str "burnout") = str "stress_burnout" := by
  refine ⟨?_, rfl, rfl⟩
  decide

/-- On intents without the `express_` prefix, `_canonical_mood_from_intent`
reduces to suffix-stripping followed by the alias lookup. -/
theorem canonical_mood_nonexpress (x : Str)
    (hx : (str "express_").isPrefixOf x = false) :
    canonical_mood_from_intent x =
      (aliasLookup ((suffix_regex_group x).getD x)).getD
        ((suffix_regex_group x).getD x) := by
  unfold canonical_mood_from_intent
  rw [if_neg (by simp [hx])]

/-- Every right-hand side of the alias table is itself canonical. -/
theorem alias_values_fixed :
    MOOD_ALIASES.all (fun kv => canonical_mood_from_intent kv.2 == kv.2) = true := by
  decide

theorem aliasLookup_mem {b v : Str} (h : aliasLookup b = some v) :
    ∃ kv, kv ∈ MOOD_ALIASES ∧ kv.2 = v := by
  obtain ⟨kv, hmem, hf⟩ := List.exists_of_findSome?_eq_some h
  refine ⟨kv, hmem, ?_⟩
  by_cases hp : kv.1.isPrefixOf b = true
  · rw [if_pos hp] at hf
    exact Option.some.inj hf
  · rw [if_neg hp] at hf
    cases hf

theorem canonical_mood_fixed_of_alias {v : Str}
    (h : ∃ kv, kv ∈ MOOD_ALIASES ∧ kv.2 = v) :
    canonical_mood_from_intent v = v := by
  obtain ⟨kv, hmem, rfl⟩ := h
  have hall := List.all_eq_true.mp alias_values_fixed kv hmem
  exact eq_of_beq hall

/-- A successful match of the variant regex yields a nonempty group over
`[a-z_]` that is a prefix of the intent. -/
theorem suffix_group_spec {x w : Str} (h : suffix_regex_group x = some w) :
    w.all lowbarChar = true ∧ w <+: x := by
  simp only [suffix_regex_group] at h
  split at h
  · cases h
  · split at h
    · rename_i a wrev pre_eq
      split at h
      · rename_i hcond
        obtain ⟨-, hall, -, -⟩ := hcond
        cases h
        refine ⟨hall, ?_⟩
        have hpre : x.takeWhile (· != '\\') <+: x := List.takeWhile_prefix _
        have htw : x.takeWhile (· != '\\') = wrev.reverse ++ ['_', 'p'] := by
          have hr := congrArg List.reverse pre_eq
          simpa using hr
        exact List.IsPrefix.trans ⟨['_', 'p'], htw.symm⟩ hpre
      · cases h
    · cases h

/-- The variant regex cannot match a string over `[a-z_]`: such a string
contains no backslash. -/
theorem suffix_group_none_of_lowbar {w : Str} (hall : w.all lowbarChar = true) :
    suffix_regex_group w = none := by
  have htw : w.takeWhile (· != '\\') = w := by
    apply List.takeWhile_eq_self_iff.mpr
    intro c hc
    have hc' := List.all_eq_true.mp hall c hc
    by_cases hu : c == '_'
    · have : c = '_' := eq_of_beq hu
      subst this
      decide
    · have hlow : (decide ('a' ≤ c) && decide (c ≤ 'z')) = true := by
        have hthis := hc'
        unfold lowbarChar at hthis
        rw [Bool.or_eq_true] at hthis
        rcases hthis with h1 | h2
        · exact absurd h1 hu
        · exact h2
      rw [Bool.and_eq_true] at hlow
      have hac : 'a' ≤ c := of_decide_eq_true hlow.1
      have hne : c ≠ '\\' := by
        intro hcc
        rw [hcc] at hac
        exact absurd hac (by decide)
      simpa using hne
  simp [suffix_regex_group, htw]

/-- C4 (amended): mood canonicalization is idempotent on every intent that
does not start with `express_` (in particular on the suffix-stripping and
alias path), and each of the twelve canonical mood names is returned
unchanged.  On `express_`-prefixed intents idempotence fails (see the
counterexample). -/
theorem C4_mood_canonicalization_amended :
    (∀ x : Str, (str "express_").isPrefixOf x = false →
      canonical_mood_from_intent (canonical_mood_from_intent x) =
        canonical_mood_from_intent x) ∧
    MOOD_TO_SUPPORT_UTTER.all
      (fun kv => canonical_mood_from_intent kv.1 == kv.1) = true := by
  constructor
  · intro x hx
    rw [canonical_mood_nonexpress x hx]
    cases hsg : suffix_regex_group x with
    | none =>
      simp only [hsg, Option.getD_none]
      cases hal : aliasLookup x with
      | some v =>
        simp only [hal, Option.getD_some]
        exact canonical_mood_fixed_of_alias (aliasLookup_mem hal)
      | none =>
        simp only [hal, Option.getD_none]
        rw [canonical_mood_nonexpress x hx]
        simp only [hsg, Option.getD_none, hal]
    | some w =>
      simp only [hsg, Option.getD_some]
      obtain ⟨hwall, hwpre⟩ := suffix_group_spec hsg
      cases hal : aliasLookup w with
      | some v =>
        simp only [hal, Option.getD_some]
        exact canonical_mood_fixed_of_alias (aliasLookup_mem hal)
      | none =>
        simp only [hal, Option.getD_none]
        have hwx : (str "express_").isPrefixOf w = false := by
          cases hb : (str "express_").isPrefixOf w
          · rfl
          · exfalso
            have h1 : str "express_" <+: w := List.isPrefixOf_iff_prefix.mp hb
            have h3 : (str "express_").isPrefixOf x = true :=
              List.isPrefixOf_iff_prefix.mpr (h1.trans hwpre)
            rw [hx] at h3
            cases h3
        rw [canonical_mood_nonexpress w hwx]
        simp only [suffix_group_none_of_lowbar hwall, Option.getD_none, hal]
  · decide

theorem C4_mood_canonicalization_witness :
    (str "express_").isPrefixOf (str "anxiety") = false ∧
    canonical_mood_from_intent (canonical_mood_from_intent (str "anxiety")) =
      canonical_mood_from_intent (str "anxiety") :=
  ⟨by decide, C4_mood_canonicalization_amended.1 (str "anxiety") (by decide)⟩

/-- C5 (counterexample): `parse_time("alas 10 sa buntag")` returns
`09:00`, not the `10:00` the claim derives from the hour, because
`normalize_time_text` replaces the whole string by `morning` as soon as
it contains `buntag`, and `WORD_MAP` answers before the `alas` branch. -/
theorem C5_alas_counterexample :
    parse_time 0 0 (str "alas 10 sa buntag") = some (str "09:00") ∧
    (some (str "09:00") : Option Str) ≠ some (str "10:00") := by
  exact ⟨rfl, by decide⟩

/-- C5 (amended): for every hour 1–12, `parse_time "alas N sa <part>"`
returns the fixed word-map time of the part of day — `09:00` for
`buntag`, `15:00` for `hapon`, `18:00` for `gabii` — independent of N,
because normalization collapses any input containing the part keyword to
the English word answered by `WORD_MAP` before the `alas` pattern runs. -/
theorem C5_alas_amended (n : Nat) (h1 : 1 ≤ n) (h2 : n ≤ 12) (nowH nowM : Nat) :
    parse_time nowH nowM (str "alas " ++ (Nat.repr n).toList ++ str " sa buntag") =
      some (str "09:00") ∧
    parse_time nowH nowM (str "alas " ++ (Nat.repr n).toList ++ str " sa hapon") =
      some (str "15:00") ∧
    parse_time nowH nowM (str "alas " ++ (Nat.repr n).toList ++ str " sa gabii") =
      some (str "18:00") := by
  interval_cases n <;> exact ⟨rfl, rfl, rfl⟩

theorem C5_alas_amended_witness :
    1 ≤ 3 ∧ 3 ≤ 12 ∧
    (parse_time 0 0 (str "alas " ++ (Nat.repr 3).toList ++ str " sa buntag") =
      some (str "09:00") ∧
    parse_time 0 0 (str "alas " ++ (Nat.repr 3).toList ++ str " sa hapon") =
      some (str "15:00") ∧
    parse_time 0 0 (str "alas " ++ (Nat.repr 3).toList ++ str " sa gabii") =
      some (str "18:00")) :=
  ⟨by decide, by decide, C5_alas_amended 3 (by decide) (by decide) 0 0⟩

/-- C6 (evidence for the code bug): `normalize_date_text` lowercases and
replaces Cebuano phrases but never removes internal whitespace, so the
normalized forms of "next week" and "sunod semana" (which the Cebuano
table itself rewrites to "next week") can never equal the "nextweek"
literal the `+7 days` branch tests; with the optional dateutil parser
absent both fall through every branch and return None, while the literal
"nextweek" does reach the branch and returns today + 7. -/
theorem C6_next_week_unreachable (today : Nat) :
    parse_date today none (str "next week") = none ∧
    parse_date today none (str "sunod semana") = none ∧
    parse_date today none (str "nextweek") = some (DateRes.iso (today + 7)) := by
  exact ⟨rfl, rfl, rfl⟩

/-- C7: the four sample conversions hold, and in the numeric clock
branch `pm` adds 12 unless the hour is already 12, `am` zeroes hour 12,
the guarded return succeeds exactly when the converted hour is below 24
and the minute below 60, and any returned value is the zero-padded
`HH:MM`. -/
theorem C7_clock_conversion :
    (∀ nowH nowM : Nat,
      parse_time nowH nowM (str "3pm") = some (str "15:00") ∧
      parse_time nowH nowM (str "12am") = some (str "00:00") ∧
      parse_time nowH nowM (str "alas 3 sa hapon") = some (str "15:00") ∧
      parse_time nowH nowM (str "buntag") = some (str "09:00")) ∧
    (∀ h : Nat, clock_convert h (some true) = if h = 12 then h else h + 12) ∧
    (∀ h : Nat, clock_convert h (some false) = if h = 12 then 0 else h) ∧
    (∀ h mins : Nat, (clock_result h mins).isSome = true ↔ h < 24 ∧ mins < 60) ∧
    (∀ (h mins : Nat) (r : Str), clock_result h mins = some r →
      r = pad2 h ++ ':' :: pad2 mins) := by
  refine ⟨fun nowH nowM => ⟨rfl, rfl, rfl, rfl⟩, ?_, ?_, ?_, ?_⟩
  · intro h
    by_cases hh : h = 12
    · simp [clock_convert, hh]
    · simp [clock_convert, hh]
  · intro h
    by_cases hh : h = 12
    · simp [clock_convert, hh]
    · simp [clock_convert, hh]
  · intro h mins
    unfold clock_result
    by_cases hg : h < 24 ∧ mins < 60
    · simp [hg]
    · simp [hg]
  · intro h mins r hr
    unfold clock_result at hr
    split at hr
    · exact (Option.some.inj hr).symm
    · cases hr

theorem C7_clock_conversion_witness :
    clock_result 15 0 = some (str "15:00") ∧
    str "15:00" = pad2 15 ++ ':' :: pad2 0 :=
  ⟨by decide, C7_clock_conversion.2.2.2.2 15 0 (str "15:00") (by decide)⟩

/-- C8: "tomorrow" and "ugma" both parse to the day after the current
date, "tmrw" is first corrected to "tomorrow" by the misspelling table
and parses identically, and "today" and "now" both parse to the current
date — for every current date and whether or not the optional dateutil
parser is installed. -/
theorem C8_relative_dates (today : Nat) (dp : Option (Str → Option Nat)) :
    parse_date today dp (str "tomorrow") = some (DateRes.iso (today + 1)) ∧
    parse_date today dp (str "ugma") = some (DateRes.iso (today + 1)) ∧
    parse_date today dp (str "tmrw") = parse_date today dp (str "tomorrow") ∧
    parse_date today dp (str "today") = some (DateRes.iso today) ∧
    parse_date today dp (str "now") = some (DateRes.iso today) := by
  exact ⟨rfl, rfl, rfl, rfl, rfl⟩

/-- C9 (counterexample): unmatched input is not passed through
unchanged — the function returns the trimmed, lowercased form. -/
theorem C9_passthrough_counterexample :
    normalize_yes_no (str "Maybe") = str "maybe" ∧
    str "maybe" ≠ str "Maybe" := by
  exact ⟨rfl, by decide⟩

/-- C9 (amended): every affirmative phrase maps to "yes" and every
negative phrase to "no"; the result depends only on the trimmed,
lowercased input (so membership is insensitive to case and surrounding
whitespace); EVERY unmatched input passes through in trimmed, lowercased
form (hence unchanged when already trimmed and lowercase); and the
function is total. -/
theorem C9_yes_no_amended :
    YES_SET.all (fun p => normalize_yes_no p == str "yes") = true ∧
    NO_SET.all (fun p => normalize_yes_no p == str "no") = true ∧
    (∀ a b : Str, lowerStr (trimStr a) = lowerStr (trimStr b) →
      normalize_yes_no a = normalize_yes_no b) ∧
    (∀ v : Str, YES_SET.contains (lowerStr (trimStr v)) = false →
      NO_SET.contains (lowerStr (trimStr v)) = false →
      normalize_yes_no v = lowerStr (trimStr v)) ∧
    normalize_yes_no (str "maybe") = str "maybe" ∧
    normalize_yes_no (str " MAYBE ") = str "maybe" := by
  refine ⟨by decide, by decide, ?_, ?_, rfl, rfl⟩
  · intro a b hab
    unfold normalize_yes_no
    rw [hab]
  · intro v h1 h2
    unfold normalize_yes_no
    rw [if_neg (by rw [h1]; exact Bool.false_ne_true),
      if_neg (by rw [h2]; exact Bool.false_ne_true)]

theorem C9_yes_no_witness :
    (lowerStr (trimStr (str " SIGE ")) = lowerStr (trimStr (str "sige")) ∧
      normalize_yes_no (str " SIGE ") = normalize_yes_no (str "sige")) ∧
    (YES_SET.contains (lowerStr (trimStr (str "Maybe"))) = false ∧
      NO_SET.contains (lowerStr (trimStr (str "Maybe"))) = false ∧
      normalize_yes_no (str "Maybe") = lowerStr (trimStr (str "Maybe"))) :=
  ⟨⟨by decide, C9_yes_no_amended.2.2.1 (str " SIGE ") (str "sige") (by decide)⟩,
   by decide, by decide,
   C9_yes_no_amended.2.2.2.1 (str "Maybe") (by decide) (by decide)⟩

/-- Lowercasing fixes whitespace characters. -/
theorem ws_toLower {c : Char} (h : isWsChar c = true) : Char.toLower c = c := by
  simp only [isWsChar, Char.isWhitespace, Bool.or_eq_true, decide_eq_true_eq] at h
  rcases h with ((rfl | rfl) | rfl) | rfl <;> rfl

/-- A nonempty whitespace-free infix of `a ++ rest` with `a` all
whitespace lies in `rest`. -/
theorem infix_drop_ws_left {p a rest : Str}
    (h : p <:+: a ++ rest) (hp : p ≠ [])
    (hpc : ∀ x ∈ p, isWsChar x = false) (ha : ∀ x ∈ a, isWsChar x = true) :
    p <:+: rest := by
  obtain ⟨u, v, huv⟩ := h
  have huv' : u ++ (p ++ v) = a ++ rest := by rw [← List.append_assoc]; exact huv
  rcases List.append_eq_append_iff.mp huv' with ⟨a', ha', hb'⟩ | ⟨c', hc', hd'⟩
  · cases a' with
    | nil =>
      refine ⟨[], v, ?_⟩
      simpa using hb'
    | cons y a'' =>
      exfalso
      have hy_a : y ∈ a := by rw [ha']; simp
      cases p with
      | nil => exact hp rfl
      | cons q qs =>
        have hcons : q :: (qs ++ v) = y :: (a'' ++ rest) := by simpa using hb'
        have hqy : q = y := (List.cons_eq_cons.mp hcons).1
        have h1 := hpc q (by simp)
        rw [hqy, ha y hy_a] at h1
        cases h1
  · refine ⟨c', v, ?_⟩
    rw [hd']
    simp [List.append_assoc]

/-- A nonempty whitespace-free infix of `rest ++ c` with `c` all
whitespace lies in `rest`. -/
theorem infix_drop_ws_right {p rest c : Str}
    (h : p <:+: rest ++ c) (hp : p ≠ [])
    (hpc : ∀ x ∈ p, isWsChar x = false) (hc : ∀ x ∈ c, isWsChar x = true) :
    p <:+: rest := by
  obtain ⟨u, v, huv⟩ := h
  rcases List.append_eq_append_iff.mp huv with ⟨a', ha', hb'⟩ | ⟨cc, hcc, hd'⟩
  · exact ⟨u, a', ha'.symm⟩
  · rcases List.append_eq_append_iff.mp hcc with ⟨w, hw1, hw2⟩ | ⟨w, hw1, hw2⟩
    · cases cc with
      | nil =>
        refine ⟨u, [], ?_⟩
        rw [List.append_nil]
        rw [List.append_nil] at hw2
        rw [hw1, hw2]
      | cons z zs =>
        exfalso
        have hz_p : z ∈ p := by rw [hw2]; simp
        have hz_c : z ∈ c := by rw [hd']; simp
        have h1 := hpc z hz_p
        rw [hc z hz_c] at h1
        cases h1
    · exfalso
      cases p with
      | nil => exact hp rfl
      | cons q qs =>
        have hq_c : q ∈ c := by rw [hd', hw2]; simp
        have h1 := hpc q (by simp)
        rw [hc q hq_c] at h1
        cases h1

/-- Python `strip` decomposition: the input is a whitespace prefix, the
trimmed core, and a whitespace suffix. -/
theorem trim_decomp (l : Str) :
    ∃ pre suf, l = pre ++ trimStr l ++ suf ∧
      (∀ x ∈ pre, isWsChar x = true) ∧ (∀ x ∈ suf, isWsChar x = true) := by
  refine ⟨l.takeWhile isWsChar,
    ((l.dropWhile isWsChar).reverse.takeWhile isWsChar).reverse, ?_, ?_, ?_⟩
  · have h1 : l.takeWhile isWsChar ++ l.dropWhile isWsChar = l :=
      List.takeWhile_append_dropWhile _ _
    have h2 : (l.dropWhile isWsChar).reverse.takeWhile isWsChar ++
        (l.dropWhile isWsChar).reverse.dropWhile isWsChar =
        (l.dropWhile isWsChar).reverse :=
      List.takeWhile_append_dropWhile _ _
    have h3 : l.dropWhile isWsChar =
        ((l.dropWhile isWsChar).reverse.dropWhile isWsChar).reverse ++
          ((l.dropWhile isWsChar).reverse.takeWhile isWsChar).reverse := by
      have h4 := congrArg List.reverse h2
      rw [List.reverse_append, List.reverse_reverse] at h4
      exact h4.symm
    calc l = l.takeWhile isWsChar ++ l.dropWhile isWsChar := h1.symm
      _ = _ := by rw [h3]; simp [trimStr, List.append_assoc]
  · intro x hx
    exact List.mem_takeWhile_imp hx
  · intro x hx
    rw [List.mem_reverse] at hx
    exact List.mem_takeWhile_imp hx

/-- A nonempty whitespace-free infix of the lowercased raw text is an
infix of the lowercased stripped text. -/
theorem infix_lower_trim {p l : Str} (hp : p ≠ [])
    (hpc : ∀ x ∈ p, isWsChar x = false)
    (h : p <:+: lowerStr l) : p <:+: lowerStr (trimStr l) := by
  obtain ⟨pre, suf, hdecomp, hpre, hsuf⟩ := trim_decomp l
  have hmap : lowerStr l = lowerStr pre ++ (lowerStr (trimStr l) ++ lowerStr suf) := by
    conv_lhs => rw [hdecomp]
    simp [lowerStr]
  rw [hmap] at h
  have hws_pre : ∀ x ∈ lowerStr pre, isWsChar x = true := by
    intro x hx
    obtain ⟨y, hy, rfl⟩ := List.mem_map.mp hx
    rw [ws_toLower (hpre y hy)]
    exact hpre y hy
  have hws_suf : ∀ x ∈ lowerStr suf, isWsChar x = true := by
    intro x hx
    obtain ⟨y, hy, rfl⟩ := List.mem_map.mp hx
    rw [ws_toLower (hsuf y hy)]
    exact hsuf y hy
  have h2 : p <:+: lowerStr (trimStr l) ++ lowerStr suf :=
    infix_drop_ws_left h hp hpc hws_pre
  exact infix_drop_ws_right h2 hp hpc hws_suf

/-- `checkPart` returns one of the three part words, as a prefix of its
argument. -/
theorem checkPart_spec {r part : Str} (h : checkPart r = some part) :
    (part = str "buntag" ∨ part = str "hapon" ∨ part = str "gabii") ∧ part <+: r := by
  unfold checkPart at h
  split_ifs at h with h1 h2 h3
  · cases h
    exact ⟨Or.inl rfl, List.isPrefixOf_iff_prefix.mp h1⟩
  · cases h
    exact ⟨Or.inr (Or.inl rfl), List.isPrefixOf_iff_prefix.mp h2⟩
  · cases h
    exact ⟨Or.inr (Or.inr rfl), List.isPrefixOf_iff_prefix.mp h3⟩

/-- A successful anchored attempt of the Cebuano clock regex yields one
of the three part words, as an infix of the attempted text. -/
theorem attempt_alas_part {t : Str} {h : Nat} {part : Str}
    (hm : attempt_alas t = some (h, part)) :
    (part = str "buntag" ∨ part = str "hapon" ∨ part = str "gabii") ∧ part <:+: t := by
  have hsuf1 : ((t.drop 4).dropWhile isWsChar) <:+ t :=
    (List.dropWhile_suffix _).trans (List.drop_suffix _ _)
  simp only [attempt_alas] at hm
  split at hm
  · split at hm
    · split at hm
      · rename_i part' hsa
        cases hm
        split_ifs at hsa with hsa2
        · obtain ⟨hmem, hpref⟩ := checkPart_spec hsa
          refine ⟨hmem, ?_⟩
          have hsuf2 : ((((t.drop 4).dropWhile isWsChar).drop
                (((t.drop 4).dropWhile isWsChar).takeWhile Char.isDigit).length).dropWhile
                  isWsChar) <:+ t :=
            ((List.dropWhile_suffix _).trans (List.drop_suffix _ _)).trans hsuf1
          have hsuf3 : (((((t.drop 4).dropWhile isWsChar).drop
                (((t.drop 4).dropWhile isWsChar).takeWhile Char.isDigit).length).dropWhile
                  isWsChar).drop 2).dropWhile isWsChar <:+ t :=
            ((List.dropWhile_suffix _).trans (List.drop_suffix _ _)).trans hsuf2
          exact hpref.isInfix.trans hsuf3.isInfix
      · split at hm
        · rename_i part' hcp
          cases hm
          obtain ⟨hmem, hpref⟩ := checkPart_spec hcp
          refine ⟨hmem, ?_⟩
          have hsuf2 : ((((t.drop 4).dropWhile isWsChar).drop
                (((t.drop 4).dropWhile isWsChar).takeWhile Char.isDigit).length).dropWhile
                  isWsChar) <:+ t :=
            ((List.dropWhile_suffix _).trans (List.drop_suffix _ _)).trans hsuf1
          exact hpref.isInfix.trans hsuf2.isInfix
        · cases hm
    · cases hm
  · cases hm

/-- `re.search` of the Cebuano clock regex yields one of the three part
words, as an infix of the searched text. -/
theorem alas_search_part {l : Str} {h : Nat} {part : Str}
    (hs : alas_search l = some (h, part)) :
    (part = str "buntag" ∨ part = str "hapon" ∨ part = str "gabii") ∧ part <:+: l := by
  induction l with
  | nil => exact attempt_alas_part hs
  | cons c rest ih =>
    rw [alas_search] at hs
    cases hat : attempt_alas (c :: rest) with
    | some pr =>
      rw [hat] at hs
      cases hs
      exact attempt_alas_part hat
    | none =>
      rw [hat] at hs
      obtain ⟨hmem, hinf⟩ := ih hs
      exact ⟨hmem, hinf.trans (List.IsSuffix.isInfix ⟨[c], rfl⟩)⟩

/-- If one of the three part words occurs in the stripped, lowercased
text, the Cebuano keyword fold of `normalize_time_text` ends on one of
the five English word-map keys. -/
theorem time_fold_word {t0 part : Str}
    (hmem : part = str "buntag" ∨ part = str "hapon" ∨ part = str "gabii")
    (hinf : part <:+: t0) :
    CEB_TIME_KEYWORDS.foldl
      (fun t kv => if infixOfB kv.1 t = true then kv.2 else t) t0 ∈
      [str "morning", str "noon", str "afternoon", str "evening", str "now"] := by
  simp only [CEB_TIME_KEYWORDS, List.foldl_cons, List.foldl_nil]
  by_cases h1 : infixOfB (str "buntag") t0 = true
  · rw [if_pos h1]; decide
  · rw [if_neg h1]
    by_cases h2 : infixOfB (str "hapon") t0 = true
    · rw [if_pos h2]; decide
    · rw [if_neg h2]
      by_cases h3 : infixOfB (str "udto") t0 = true
      · rw [if_pos h3]; decide
      · rw [if_neg h3]
        by_cases h4 : infixOfB (str "gabii") t0 = true
        · rw [if_pos h4]; decide
        · exfalso
          rcases hmem with rfl | rfl | rfl
          · exact h1 (decide_eq_true hinf)
          · exact h2 (decide_eq_true hinf)
          · exact h4 (decide_eq_true hinf)

/-- Whenever the Cebuano clock regex would match the raw text,
`normalize_time_text` has already rewritten the input to a word-map
key. -/
theorem normalize_time_word {value : Str} {h : Nat} {part : Str}
    (hs : alas_search (lowerStr value) = some (h, part)) :
    normalize_time_text value ∈
      [str "morning", str "noon", str "afternoon", str "evening", str "now"] := by
  obtain ⟨hmem, hinf⟩ := alas_search_part hs
  have hp_ne : part ≠ [] := by rcases hmem with rfl | rfl | rfl <;> decide
  have hp_ws : ∀ x ∈ part, isWsChar x = false := by
    rcases hmem with rfl | rfl | rfl <;> decide
  have h2 : part <:+: lowerStr (trimStr value) := infix_lower_trim hp_ne hp_ws hinf
  have h3 := time_fold_word hmem h2
  simp only [normalize_time_text]
  simp only [List.mem_cons, List.not_mem_nil, or_false] at h3
  rcases h3 with h4 | h4 | h4 | h4 | h4 <;> rw [h4] <;> decide

/-- Looking a word-map key up in `WORD_MAP` always succeeds. -/
theorem word_lookup_some (nowH nowM : Nat) {s : Str}
    (hs : s ∈ [str "morning", str "noon", str "afternoon", str "evening", str "now"]) :
    (assocGet (word_map nowH nowM) s).isSome = true := by
  simp only [List.mem_cons, List.not_mem_nil, or_false] at hs
  rcases hs with rfl | rfl | rfl | rfl | rfl <;> rfl

/-- Every value `WORD_MAP` can return is a valid zero-padded `HH:MM`,
given a valid current wall clock. -/
theorem word_map_val {nowH nowM : Nat} (hH : nowH < 24) (hM : nowM < 60) {s r : Str}
    (h : assocGet (word_map nowH nowM) s = some r) :
    ∃ hh mm, hh < 24 ∧ mm < 60 ∧ r = pad2 hh ++ ':' :: pad2 mm := by
  obtain ⟨kv, hmem, hf⟩ := List.exists_of_findSome?_eq_some h
  have hv : kv.2 = r := by
    by_cases hp : kv.1 = s
    · rw [if_pos hp] at hf
      exact Option.some.inj hf
    · rw [if_neg hp] at hf
      cases hf
  simp only [word_map, List.mem_cons, List.not_mem_nil, or_false] at hmem
  rcases hmem with rfl | rfl | rfl | rfl | rfl
  · exact ⟨9, 0, by decide, by decide, by rw [← hv]; decide⟩
  · exact ⟨12, 0, by decide, by decide, by rw [← hv]; decide⟩
  · exact ⟨15, 0, by decide, by decide, by rw [← hv]; decide⟩
  · exact ⟨18, 0, by decide, by decide, by rw [← hv]; decide⟩
  · exact ⟨nowH, nowM, hH, hM, by rw [← hv]⟩

/-- C10: whenever `parse_time` returns a value (it is total: every input,
with `None` modelled as the empty string, reaches a `return`), that value
is a zero-padded `HH:MM` with hour below 24 and minute below 60 — in
particular the unguarded `alas` branch, which could fabricate hours of 24
or more, never produces the result, because any input containing
`buntag`, `hapon` or `gabii` is rewritten by `normalize_time_text` into a
word-map key answered by the earlier `WORD_MAP` rule. -/
theorem C10_parse_time_valid :
    (∀ (value : Str) (nowH nowM : Nat) (r : Str), nowH < 24 → nowM < 60 →
      parse_time nowH nowM value = some r →
      ∃ hh mm, hh < 24 ∧ mm < 60 ∧ r = pad2 hh ++ ':' :: pad2 mm) ∧
    (∀ (value : Str) (h : Nat) (part : Str),
      alas_search (lowerStr value) = some (h, part) →
      normalize_time_text value ∈
        [str "morning", str "noon", str "afternoon", str "evening", str "now"]) := by
  constructor
  · intro value nowH nowM r hH hM hpt
    simp only [parse_time] at hpt
    cases hcg : clock_groups (normalize_time_text value) with
    | some trip =>
      obtain ⟨h, mins, ampm⟩ := trip
      simp only [hcg] at hpt
      cases hcr : clock_result (clock_convert h ampm) mins with
      | some r' =>
        simp only [hcr] at hpt
        cases hpt
        unfold clock_result at hcr
        split at hcr
        · rename_i hguard
          cases hcr
          exact ⟨clock_convert h ampm, mins, hguard.1, hguard.2, rfl⟩
        · cases hcr
      | none =>
        simp only [hcr] at hpt
        cases hwl : assocGet (word_map nowH nowM) (normalize_time_text value) with
        | some w =>
          simp only [hwl] at hpt
          cases hpt
          exact word_map_val hH hM hwl
        | none =>
          simp only [hwl] at hpt
          cases hal : alas_search (lowerStr value) with
          | some pr =>
            exfalso
            obtain ⟨hh, part⟩ := pr
            have hword := normalize_time_word hal
            have hsome := word_lookup_some nowH nowM hword
            rw [hwl] at hsome
            cases hsome
          | none =>
            rw [hal] at hpt
            cases hpt
    | none =>
      simp only [hcg] at hpt
      cases hwl : assocGet (word_map nowH nowM) (normalize_time_text value) with
      | some w =>
        simp only [hwl] at hpt
        cases hpt
        exact word_map_val hH hM hwl
      | none =>
        simp only [hwl] at hpt
        cases hal : alas_search (lowerStr value) with
        | some pr =>
          exfalso
          obtain ⟨hh, part⟩ := pr
          have hword := normalize_time_word hal
          have hsome := word_lookup_some nowH nowM hword
          rw [hwl] at hsome
          cases hsome
        | none =>
          rw [hal] at hpt
          cases hpt
  · intro value h part hs
    exact normalize_time_word hs

theorem C10_parse_time_valid_witness :
    (0 : Nat) < 24 ∧ (0 : Nat) < 60 ∧
    parse_time 0 0 (str "3pm") = some (str "15:00") ∧
    (∃ hh mm, hh < 24 ∧ mm < 60 ∧ str "15:00" = pad2 hh ++ ':' :: pad2 mm) :=
  ⟨by decide, by decide, by decide,
    C10_parse_time_valid.1 (str "3pm") 0 0 (str "15:00") (by decide) (by decide)
      (by decide)⟩

end RasaBot
